import Mathlib

/-!
# Verification of the journal-live ledger / risk engine

Shallow embedding of the core computational services of the repository:

* `app/services/charges_engine.py`  — `calculate_charges`
* `app/services/pnl_engine.py`      — `get_lot_size`, `aggregate_pnl`
* `app/services/position_engine.py` — `calculate_positions`
* `app/routes/strategy_pnl_routes.py` — `strategy_pnl` (its computational body)

Python `Decimal` values are modelled as exact rationals (`ℚ`): at the
magnitudes the engine handles, `Decimal`'s 28-significant-digit context
performs every addition and multiplication exactly, and the only rounding
the code performs is the explicit `round(x, 2)` at output boundaries, which
quantizes with the context rounding mode `ROUND_HALF_EVEN`.  That rounding
is modelled by `round2` below.  Emission through `float(...)` is modelled
as the identity on the already-2-decimal value (2-decimal decimals of the
sizes involved round-trip through a binary double and `str`).
-/

/-! ## Calendar dates

Python `date` objects are grouping keys compared lexicographically by
(year, month, day).  The engine uses them for grouping, ascending sorting,
and the summary time windows (same day / same ISO week / same month). -/

structure Date where
  y : Int
  m : Int
  d : Int
deriving DecidableEq, Repr

/-- Lexicographic order on calendar dates: exactly the comparison Python
performs on `datetime.date` values. -/
def dateLe (a b : Date) : Prop :=
  a.y < b.y ∨ (a.y = b.y ∧ (a.m < b.m ∨ (a.m = b.m ∧ a.d ≤ b.d)))

instance dateLe.instDecidable : DecidableRel dateLe := fun a b => by
  unfold dateLe; infer_instance

instance dateLe.instIsTotal : IsTotal Date dateLe :=
  ⟨fun a b => by
    obtain ⟨ya, ma, da⟩ := a
    obtain ⟨yb, mb, db⟩ := b
    unfold dateLe
    simp only
    omega⟩

instance dateLe.instIsTrans : IsTrans Date dateLe :=
  ⟨fun a b c h1 h2 => by
    obtain ⟨ya, ma, da⟩ := a
    obtain ⟨yb, mb, db⟩ := b
    obtain ⟨yc, mc, dc⟩ := c
    unfold dateLe at h1 h2 ⊢
    simp only at h1 h2 ⊢
    omega⟩

instance dateLe.instIsAntisymm : IsAntisymm Date dateLe :=
  ⟨fun a b h1 h2 => by
    obtain ⟨ya, ma, da⟩ := a
    obtain ⟨yb, mb, db⟩ := b
    unfold dateLe at h1 h2
    dsimp only at h1 h2
    simp only [Date.mk.injEq]
    omega⟩

/-- Number of days from 1970-01-01 to the given civil date (proleptic
Gregorian; the standard `days_from_civil` computation, which is what
Python's `date.toordinal` implements up to the constant 719163). -/
def daysFromCivil (dt : Date) : Int :=
  let y := if dt.m ≤ 2 then dt.y - 1 else dt.y
  let era := y.fdiv 400
  let yoe := y - era * 400
  let mp := (dt.m + 9).emod 12
  let doy := (153 * mp + 2).fdiv 5 + dt.d - 1
  let doe := yoe * 365 + yoe.fdiv 4 - yoe.fdiv 100 + doy
  era * 146097 + doe - 719468

/-- Python ordinal of a date (`date.toordinal`): day 1 is 0001-01-01. -/
def pyOrdinal (dt : Date) : Int := daysFromCivil dt + 719163

/-- Monday-based week block of a date.  Two dates satisfy
`d1.isocalendar()[:2] == d2.isocalendar()[:2]` exactly when they lie in the
same Monday-to-Sunday week (each ISO (year, week) pair labels one such
block uniquely), i.e. when their `weekBlock`s agree.  0001-01-01
(ordinal 1) is a Monday. -/
def weekBlock (dt : Date) : Int := (pyOrdinal dt - 1).fdiv 7

/-- Year-month key of a date.  `str(d).startswith(last.strftime("%Y-%m"))`
holds exactly when year and month agree (ISO date strings). -/
def monthKey (dt : Date) : Int × Int := (dt.y, dt.m)

/-! ## First-occurrence deduplication

Python `dict` / `defaultdict` keys enumerate in insertion order, i.e. the
order of first occurrence.  `firstDedup` is that key order. -/

def firstDedupAux [DecidableEq α] (seen : List α) : List α → List α
  | [] => []
  | a :: l => if a ∈ seen then firstDedupAux seen l else a :: firstDedupAux (a :: seen) l

/-- The distinct elements of `l` in order of first occurrence. -/
def firstDedup [DecidableEq α] (l : List α) : List α := firstDedupAux [] l

theorem mem_firstDedupAux [DecidableEq α] {x : α} :
    ∀ {seen l : List α}, x ∈ firstDedupAux seen l ↔ x ∈ l ∧ x ∉ seen := by
  intro seen l
  induction l generalizing seen with
  | nil => simp [firstDedupAux]
  | cons a l ih =>
    by_cases ha : a ∈ seen
    · simp only [firstDedupAux, if_pos ha, ih, List.mem_cons]
      constructor
      · rintro ⟨hx, hns⟩; exact ⟨Or.inr hx, hns⟩
      · rintro ⟨hx | hx, hns⟩
        · exact absurd (hx ▸ ha) hns
        · exact ⟨hx, hns⟩
    · simp only [firstDedupAux, if_neg ha, List.mem_cons, ih]
      constructor
      · rintro (rfl | ⟨hx, hns⟩)
        · exact ⟨Or.inl rfl, ha⟩
        · exact ⟨Or.inr hx, fun h => hns (Or.inr h)⟩
      · rintro ⟨rfl | hx, hns⟩
        · exact Or.inl rfl
        · by_cases hxa : x = a
          · exact Or.inl hxa
          · exact Or.inr ⟨hx, fun h => h.elim hxa hns⟩

theorem mem_firstDedup [DecidableEq α] {x : α} {l : List α} :
    x ∈ firstDedup l ↔ x ∈ l := by
  simp [firstDedup, mem_firstDedupAux]

theorem nodup_firstDedupAux [DecidableEq α] :
    ∀ {seen l : List α}, (firstDedupAux seen l).Nodup := by
  intro seen l
  induction l generalizing seen with
  | nil => simp [firstDedupAux]
  | cons a l ih =>
    by_cases ha : a ∈ seen
    · simpa [firstDedupAux, if_pos ha] using ih
    · simp only [firstDedupAux, if_neg ha, List.nodup_cons]
      refine ⟨fun hmem => ?_, ih⟩
      exact (mem_firstDedupAux.mp hmem).2 (List.mem_cons_self a _)

theorem nodup_firstDedup [DecidableEq α] (l : List α) : (firstDedup l).Nodup :=
  nodup_firstDedupAux

theorem firstDedup_perm_of_perm [DecidableEq α] {l₁ l₂ : List α} (h : l₁.Perm l₂) :
    (firstDedup l₁).Perm (firstDedup l₂) := by
  rw [List.perm_ext_iff_of_nodup (nodup_firstDedup l₁) (nodup_firstDedup l₂)]
  intro a
  simp [mem_firstDedup, h.mem_iff]

/-! ## Half-even rounding to 2 decimal places

`round(x, 2)` on a Python `Decimal` quantizes to a multiple of `0.01`
using `ROUND_HALF_EVEN` (ties go to the even multiple). -/

/-- Round a rational to the nearest integer, ties to even. -/
def roundHalfEven (x : ℚ) : ℤ :=
  if x - ⌊x⌋ < 1/2 then ⌊x⌋
  else if 1/2 < x - ⌊x⌋ then ⌊x⌋ + 1
  else if ⌊x⌋ % 2 = 0 then ⌊x⌋ else ⌊x⌋ + 1

/-- Python `round(x, 2)`: nearest multiple of 1/100, ties to even. -/
def round2 (x : ℚ) : ℚ := (roundHalfEven (100 * x) : ℚ) / 100

theorem abs_roundHalfEven_sub_le (x : ℚ) : |(roundHalfEven x : ℚ) - x| ≤ 1/2 := by
  unfold roundHalfEven
  have h0 : (⌊x⌋ : ℚ) ≤ x := Int.floor_le x
  have h1 : x < (⌊x⌋ : ℚ) + 1 := Int.lt_floor_add_one x
  by_cases hlt : x - (⌊x⌋ : ℚ) < 1/2
  · rw [if_pos hlt, abs_le]
    constructor <;> linarith
  · rw [if_neg hlt]
    by_cases hgt : 1/2 < x - (⌊x⌋ : ℚ)
    · rw [if_pos hgt, abs_le]
      push_cast
      constructor <;> linarith
    · have heq : x - (⌊x⌋ : ℚ) = 1/2 := le_antisymm (not_lt.mp hgt) (not_lt.mp hlt)
      rw [if_neg hgt]
      by_cases hpar : ⌊x⌋ % 2 = 0
      · rw [if_pos hpar, abs_le]; constructor <;> linarith
      · rw [if_neg hpar, abs_le]
        push_cast
        constructor <;> linarith

theorem abs_round2_sub_le (x : ℚ) : |round2 x - x| ≤ 1/200 := by
  unfold round2
  have h := abs_roundHalfEven_sub_le (100 * x)
  have h100 : |(roundHalfEven (100 * x) : ℚ) / 100 - x|
      = |(roundHalfEven (100 * x) : ℚ) - 100 * x| / 100 := by
    rw [← abs_of_pos (show (0:ℚ) < 100 by norm_num), ← abs_div]
    congr 1
    field_simp
  rw [h100]
  linarith

theorem round2_nonpos {x : ℚ} (hx : x ≤ 0) : round2 x ≤ 0 := by
  have hy : 100 * x ≤ 0 := by linarith
  have hfl : ⌊100 * x⌋ ≤ 0 := by
    have := Int.floor_mono hy
    simpa using this
  have h0 : (⌊100 * x⌋ : ℚ) ≤ 100 * x := Int.floor_le _
  have key : roundHalfEven (100 * x) ≤ 0 := by
    unfold roundHalfEven
    split_ifs with h1 h2 h3
    · exact hfl
    · have hcast : (⌊100 * x⌋ : ℚ) < 0 := by linarith
      have : ⌊100 * x⌋ < 0 := by exact_mod_cast hcast
      omega
    · exact hfl
    · have hcast : (⌊100 * x⌋ : ℚ) < 0 := by linarith [not_lt.mp h1]
      have : ⌊100 * x⌋ < 0 := by exact_mod_cast hcast
      omega
  unfold round2
  have hc : (roundHalfEven (100 * x) : ℚ) ≤ 0 := by exact_mod_cast key
  linarith

/-! ## Lot registry (`LOT_SIZES` / `get_lot_size`)

Identical copies live in `pnl_engine.py` and `position_engine.py`
(same entries, same insertion order); one embedding serves both. -/

/-- The `LOT_SIZES` table in dict insertion order. -/
def LOT_SIZES : List (String × ℚ) :=
  [("NIFTY", 75), ("BANKNIFTY", 15), ("FINNIFTY", 40), ("SENSEX", 20)]

/-- Containment `needle in hay` on strings (Python substring containment), on the
underlying character lists. -/
def listHasSub [DecidableEq α] (needle : List α) : List α → Bool
  | [] => needle.isEmpty
  | c :: rest => needle.isPrefixOf (c :: rest) || listHasSub needle rest

/-- Python `k in s` for strings. -/
def strContains (s k : String) : Bool := listHasSub k.data s.data

/-- Python `s.upper()` (ASCII uppercasing of each character). -/
def strUpper (s : String) : String := ⟨s.data.map Char.toUpper⟩

/-- First registry value whose key is contained in the (already
upper-cased) symbol; the loop `for k, v in LOT_SIZES.items()`. -/
def lookupLot (symU : String) : List (String × ℚ) → ℚ
  | [] => 1
  | (k, v) :: rest => if strContains symU k then v else lookupLot symU rest

/-- Function `get_lot_size(symbol)`.  The argument is optional because callers
(strategy route, position engine) may pass a missing symbol; `if not
symbol: return Decimal(1)` catches both `None` and `""`. -/
def get_lot_size (symbol : Option String) : ℚ :=
  match symbol with
  | none => 1
  | some s => if s == "" then 1 else lookupLot (strUpper s) LOT_SIZES

/-! ## Charge calculator (`charges_engine.py`) -/

def BROKERAGE_PER_ORDER : ℚ := 20
def EXCHANGE_CHARGE_RATE : ℚ := 53 / 100000        -- 0.00053
def SEBI_CHARGE_RATE : ℚ := 1 / 1000000            -- 0.000001
def GST_RATE : ℚ := 18 / 100                       -- 0.18
def STAMP_RATE : ℚ := 3 / 100000                   -- 0.00003

/-- The six rounded output fields of `calculate_charges`. -/
structure ChargeBreakdown where
  brokerage : ℚ
  exchange : ℚ
  sebi : ℚ
  stamp : ℚ
  gst : ℚ
  total : ℚ
deriving DecidableEq, Repr

/-- Unrounded intermediates of `calculate_charges`, named after the local
variables of the Python function. -/
def chargesBrokerageRaw (buy sell : ℚ) : ℚ :=
  (if buy > 0 then BROKERAGE_PER_ORDER else 0) +
  (if sell > 0 then BROKERAGE_PER_ORDER else 0)

def chargesExchangeRaw (buy sell : ℚ) : ℚ := (buy + sell) * EXCHANGE_CHARGE_RATE

def chargesSebiRaw (buy sell : ℚ) : ℚ := (buy + sell) * SEBI_CHARGE_RATE

def chargesStampRaw (buy : ℚ) : ℚ := buy * STAMP_RATE  -- buy side only

def chargesGstRaw (buy sell : ℚ) : ℚ :=
  (chargesBrokerageRaw buy sell + chargesExchangeRaw buy sell) * GST_RATE

/-- Variable `total_charges` before rounding: sum of the five unrounded components. -/
def chargesTotalRaw (buy sell : ℚ) : ℚ :=
  chargesBrokerageRaw buy sell + chargesExchangeRaw buy sell +
  chargesSebiRaw buy sell + chargesStampRaw buy + chargesGstRaw buy sell

/-- Function `calculate_charges(buy_turnover, sell_turnover)`: each returned field
is `round(·, 2)` of the corresponding unrounded value. -/
def calculate_charges (buy sell : ℚ) : ChargeBreakdown :=
  { brokerage := round2 (chargesBrokerageRaw buy sell)
    exchange := round2 (chargesExchangeRaw buy sell)
    sebi := round2 (chargesSebiRaw buy sell)
    stamp := round2 (chargesStampRaw buy)
    gst := round2 (chargesGstRaw buy sell)
    total := round2 (chargesTotalRaw buy sell) }

/-- The `total` the spec describes instead: sum the five already-rounded
components (round-then-sum). -/
def specRoundThenSumTotal (c : ChargeBreakdown) : ℚ :=
  c.brokerage + c.exchange + c.sebi + c.stamp + c.gst

/-! ## Trade records (`app/models.py`)

The fields the engines read.  Nullable / possibly-absent fields are
`Option`s; `quantity` is a non-negative integer and `price` a decimal
(§3 of the data model).  `side` is a plain string: the engines compare it
against the exact strings `"BUY"` and `"SELL"`. -/

structure Trade where
  symbol : Option String
  side : String
  quantity : Option Nat
  price : Option ℚ
  trade_time : Option Date
  suggested_strategy : Option String
  final_strategy : Option String
deriving DecidableEq, Repr

/-- Guard `not t.trade_time or not t.symbol` — the skip-guard of the trade
loops (a `datetime`/`date` is always truthy, so only `None` is falsy;
a string is falsy when `None` or empty). -/
def truthyStr : Option String → Bool
  | none => false
  | some s => !(s == "")

def tradeOk (t : Trade) : Bool := t.trade_time.isSome && truthyStr t.symbol

/-- Value `Decimal(t.quantity or 0)`. -/
def qtyD (t : Trade) : ℚ := (t.quantity.getD 0 : ℕ)

/-- Value `Decimal(t.price or 0)`. -/
def priceD (t : Trade) : ℚ := t.price.getD 0

/-- Product `qty * price * lot` — the ledger/turnover value of one trade. -/
def tradeValue (t : Trade) : ℚ := qtyD t * priceD t * get_lot_size t.symbol

/-! ## Ledger aggregator (`pnl_engine.aggregate_pnl`)

The trade loop accumulates `ledger[d][symbol]["buy"/"sell"]` and
`daily_buy[d]` / `daily_sell[d]`; a `defaultdict` entry is only created
inside the `BUY` / `SELL` branches, so a trade with any other side
creates no date bucket.  The accumulated dictionary values are denoted
by sums over the corresponding filtered trade list. -/

/-- Accumulator `daily_buy[d]`. -/
def dailyBuy (trades : List Trade) (d : Date) : ℚ :=
  ((trades.filter fun t =>
    tradeOk t && t.trade_time == some d && t.side == "BUY").map tradeValue).sum

/-- Accumulator `daily_sell[d]`. -/
def dailySell (trades : List Trade) (d : Date) : ℚ :=
  ((trades.filter fun t =>
    tradeOk t && t.trade_time == some d && t.side == "SELL").map tradeValue).sum

/-- Accumulator `ledger[d][s]["buy"]`. -/
def symBuy (trades : List Trade) (d : Date) (s : String) : ℚ :=
  ((trades.filter fun t =>
    tradeOk t && t.trade_time == some d && t.symbol == some s && t.side == "BUY").map
      tradeValue).sum

/-- Accumulator `ledger[d][s]["sell"]`. -/
def symSell (trades : List Trade) (d : Date) (s : String) : ℚ :=
  ((trades.filter fun t =>
    tradeOk t && t.trade_time == some d && t.symbol == some s && t.side == "SELL").map
      tradeValue).sum

/-- The keys of `ledger[d]` in insertion order: symbols of the valid
BUY/SELL trades dated `d`, first occurrence first. -/
def symbolsOn (trades : List Trade) (d : Date) : List String :=
  firstDedup ((trades.filter fun t =>
    tradeOk t && t.trade_time == some d && (t.side == "BUY" || t.side == "SELL")).filterMap
      (·.symbol))

/-- Daily `gross = sum(v["sell"] - v["buy"] for v in ledger[d].values())`. -/
def grossFor (trades : List Trade) (d : Date) : ℚ :=
  ((symbolsOn trades d).map fun s => symSell trades d s - symBuy trades d s).sum

/-- The keys of `ledger` (dates holding at least one valid BUY/SELL
trade), in trade order with repeats. -/
def ledgerDates (trades : List Trade) : List Date :=
  trades.filterMap fun t =>
    if tradeOk t && (t.side == "BUY" || t.side == "SELL") then t.trade_time else none

/-- Iteration order `sorted(ledger)`: the distinct ledger dates in ascending order. -/
def sortedLedgerDates (trades : List Trade) : List Date :=
  List.insertionSort dateLe (firstDedup (ledgerDates trades))

/-- One emitted row of the `daily` list (fields as appended, already
rounded to 2 decimals where the code rounds). -/
structure DailyEntry where
  date : Date
  grossPnl : ℚ
  netPnl : ℚ
  equity : ℚ
  drawdown : ℚ
  charges : ChargeBreakdown
  riskPct : ℚ
deriving DecidableEq, Repr

/-- The loop state of the daily aggregation pass.  `peaks` records the
successive values taken by the local variable `peak_equity` (one per
processed date); it is kept for stating the invariants and is not part
of the emitted payload. -/
structure DayState where
  runningPnl : ℚ
  equity : ℚ
  peakEquity : ℚ
  maxDrawdown : ℚ
  grossTotal : ℚ
  netTotal : ℚ
  chargesTotal : ℚ
  daily : List DailyEntry
  peaks : List ℚ
deriving DecidableEq, Repr

def initState (capital : ℚ) : DayState :=
  { runningPnl := 0, equity := capital, peakEquity := capital, maxDrawdown := 0,
    grossTotal := 0, netTotal := 0, chargesTotal := 0, daily := [], peaks := [] }

/-- The body of `for d in sorted(ledger):`. -/
def processDay (trades : List Trade) (capital : ℚ) (st : DayState) (d : Date) : DayState :=
  let gross := grossFor trades d
  let charges := calculate_charges (dailyBuy trades d) (dailySell trades d)
  let charge_val := charges.total
  let net := gross - charge_val
  let running_pnl := st.runningPnl + net
  let equity := capital + running_pnl
  let peak_equity := max st.peakEquity equity
  let drawdown := equity - peak_equity
  let risk_pct : ℚ := if capital > 0 then |net| / capital * 100 else 0
  let entry : DailyEntry :=
    { date := d
      grossPnl := round2 gross
      netPnl := round2 net
      equity := round2 equity
      drawdown := round2 drawdown
      charges := charges
      riskPct := round2 risk_pct }
  { runningPnl := running_pnl
    equity := equity
    peakEquity := peak_equity
    maxDrawdown := min st.maxDrawdown drawdown
    grossTotal := st.grossTotal + gross
    netTotal := st.netTotal + net
    chargesTotal := st.chargesTotal + charge_val
    daily := st.daily ++ [entry]
    peaks := st.peaks ++ [peak_equity] }

/-- State after the whole daily pass. -/
def finalState (trades : List Trade) (capital : ℚ) : DayState :=
  (sortedLedgerDates trades).foldl (processDay trades capital) (initState capital)

structure Summary where
  today : ℚ
  this_week : ℚ
  this_month : ℚ
  gross_total : ℚ
  charges_total : ℚ
  net_total : ℚ
  capital : ℚ
  remaining_capital : ℚ
  max_drawdown : ℚ
deriving DecidableEq, Repr

/-- The three time-window sums over the emitted (rounded) `net_pnl`
values.  When `daily` is empty every window sum is a sum over an empty
selection, so the reference date (`date.today()` in the source) is
irrelevant and the result is `0`. -/
def windowSums (daily : List DailyEntry) : ℚ × ℚ × ℚ :=
  match daily.getLast? with
  | none => (0, 0, 0)
  | some last =>
    ( ((daily.filter fun r => r.date == last.date).map (·.netPnl)).sum
    , ((daily.filter fun r => weekBlock r.date == weekBlock last.date).map (·.netPnl)).sum
    , ((daily.filter fun r => monthKey r.date == monthKey last.date).map (·.netPnl)).sum )

structure PnlResult where
  daily : List DailyEntry
  summary : Summary
deriving DecidableEq, Repr

/-- Function `aggregate_pnl(trades, capital)`. -/
def aggregate_pnl (trades : List Trade) (capital : ℚ) : PnlResult :=
  let st := finalState trades capital
  let ws := windowSums st.daily
  { daily := st.daily
    summary :=
      { today := round2 ws.1
        this_week := round2 ws.2.1
        this_month := round2 ws.2.2
        gross_total := round2 st.grossTotal
        charges_total := round2 st.chargesTotal
        net_total := round2 st.netTotal
        capital := round2 capital
        remaining_capital := round2 (capital + st.netTotal)
        max_drawdown := round2 st.maxDrawdown } }

/-! ## Demonstration inputs used by witnesses and counterexamples -/

/-- A SELL of 1 unit of an unregistered symbol at price 0.004. -/
def tSellTiny : Trade :=
  { symbol := some "X", side := "SELL", quantity := some 1, price := some (1/250)
    trade_time := some ⟨2024, 1, 1⟩, suggested_strategy := none, final_strategy := none }

/-! ## Claim C1 — how `total` is rounded -/

/-- C1 (counterexample): at `buy_turnover = 4000`, `sell_turnover = 0` the
emitted `total` (2-decimal rounding of the unrounded component sum,
`26.23`) differs from the sum of the five individually rounded components
(`26.22`), so `total` is *not* the round-each-component-then-sum value the
claim describes. -/
theorem c1_counterexample :
    (calculate_charges 4000 0).total ≠ specRoundThenSumTotal (calculate_charges 4000 0) := by
  have h1 : (calculate_charges 4000 0).total = 2623/100 := by
    norm_num [calculate_charges, chargesTotalRaw, chargesBrokerageRaw, chargesExchangeRaw,
      chargesSebiRaw, chargesStampRaw, chargesGstRaw, BROKERAGE_PER_ORDER,
      EXCHANGE_CHARGE_RATE, SEBI_CHARGE_RATE, GST_RATE, STAMP_RATE, round2, roundHalfEven]
  have h2 : specRoundThenSumTotal (calculate_charges 4000 0) = 2622/100 := by
    norm_num [specRoundThenSumTotal, calculate_charges, chargesTotalRaw, chargesBrokerageRaw,
      chargesExchangeRaw, chargesSebiRaw, chargesStampRaw, chargesGstRaw, BROKERAGE_PER_ORDER,
      EXCHANGE_CHARGE_RATE, SEBI_CHARGE_RATE, GST_RATE, STAMP_RATE, round2, roundHalfEven]
  rw [h1, h2]
  norm_num

/-- C1 (amended): the `total` field is the 2-decimal rounding of the sum
of the five *unrounded* components (sum-then-round, not round-then-sum),
and it can differ from the sum of the five rounded component fields by at
most 0.03. -/
theorem c1_total_sum_then_round (b s : ℚ) :
    (calculate_charges b s).total = round2 (chargesTotalRaw b s) ∧
    |(calculate_charges b s).total - specRoundThenSumTotal (calculate_charges b s)| ≤ 3/100 := by
  refine ⟨rfl, ?_⟩
  have h0 := abs_round2_sub_le (chargesTotalRaw b s)
  have h1 := abs_round2_sub_le (chargesBrokerageRaw b s)
  have h2 := abs_round2_sub_le (chargesExchangeRaw b s)
  have h3 := abs_round2_sub_le (chargesSebiRaw b s)
  have h4 := abs_round2_sub_le (chargesStampRaw b)
  have h5 := abs_round2_sub_le (chargesGstRaw b s)
  rw [abs_le] at h0 h1 h2 h3 h4 h5 ⊢
  have hTot : chargesTotalRaw b s = chargesBrokerageRaw b s + chargesExchangeRaw b s +
      chargesSebiRaw b s + chargesStampRaw b + chargesGstRaw b s := rfl
  simp only [calculate_charges, specRoundThenSumTotal]
  constructor <;> linarith [h0.1, h0.2, h1.1, h1.2, h2.1, h2.2, h3.1, h3.2, h4.1, h4.2,
    h5.1, h5.2]

/-! ## Claim C2 — lot-size lookup and the BANKNIFTY entry -/

/-- C2 (code evaluation at the failing input): the registry iterates in
insertion order and `"NIFTY"` is a substring of `"BANKNIFTY"`, so the
lookup returns the NIFTY multiplier 75; the `BANKNIFTY → 15` entry is
unreachable. -/
theorem c2_banknifty_returns_nifty_multiplier :
    get_lot_size (some "BANKNIFTY") = 75 ∧ get_lot_size (some "BANKNIFTY") ≠ 15 := by
  constructor
  · decide
  · decide

/-! ## Helper lemmas about the daily pass -/

theorem round2_zero : round2 0 = 0 := by
  norm_num [round2, roundHalfEven]

/-- Each processed date appends exactly one daily row. -/
theorem daily_length_foldl (trades : List Trade) (capital : ℚ) :
    ∀ (dates : List Date) (st : DayState),
      ((dates.foldl (processDay trades capital) st).daily).length
        = st.daily.length + dates.length := by
  intro dates
  induction dates with
  | nil => intro st; simp
  | cons d rest ih =>
    intro st
    rw [List.foldl_cons, ih]
    simp [processDay]
    omega

/-- With a non-positive capital the `else` branch of the risk computation
is taken on every date, so every emitted `risk_pct` is zero. -/
theorem riskPct_zero_of_nonpos {trades : List Trade} {capital : ℚ} (hcap : capital ≤ 0) :
    ∀ (dates : List Date) (st : DayState),
      (∀ e ∈ st.daily, e.riskPct = 0) →
      ∀ e ∈ (dates.foldl (processDay trades capital) st).daily, e.riskPct = 0 := by
  intro dates
  induction dates with
  | nil => intro st hst e he; exact hst e he
  | cons d rest ih =>
    intro st hst
    apply ih
    intro e he
    simp only [processDay] at he
    rcases List.mem_append.mp he with h1 | h1
    · exact hst e h1
    · have he' := List.mem_singleton.mp h1
      subst he'
      have hno : ¬ capital > 0 := not_lt.mpr hcap
      simp only [if_neg hno]
      exact round2_zero

/-! ## Claim C8 — risk percentage under non-positive capital -/

/-- C8: whenever `capital ≤ 0` every daily `risk_pct` emitted by
`aggregate_pnl` is exactly 0 (the guard `if capital > 0` short-circuits
the division). -/
theorem c8_riskPct_zero (trades : List Trade) (capital : ℚ) (hcap : capital ≤ 0) :
    ((aggregate_pnl trades capital).daily.map (·.riskPct))
      = List.replicate (aggregate_pnl trades capital).daily.length 0 := by
  have hall : ∀ e ∈ (aggregate_pnl trades capital).daily, e.riskPct = 0 :=
    riskPct_zero_of_nonpos hcap (sortedLedgerDates trades) (initState capital)
      (by intro e he; simp [initState] at he)
  rw [List.eq_replicate_iff]
  refine ⟨by simp, ?_⟩
  intro b hb
  rcases List.mem_map.mp hb with ⟨e, he, rfl⟩
  exact hall e he

/-- C8 witness: a concrete run (one sell trade, capital 0) instantiating
`c8_riskPct_zero`. -/
theorem c8_riskPct_zero_witness :
    ((aggregate_pnl [tSellTiny] 0).daily.map (·.riskPct))
      = List.replicate (aggregate_pnl [tSellTiny] 0).daily.length 0 :=
  c8_riskPct_zero [tSellTiny] 0 (le_refl 0)

/-! ## Claim C4 — negative capital is not rejected by the engine -/

/-- The only capital validation in the codebase: the pydantic schema
`CapitalPayload` (`capital_routes.py`) requires `capital > 0` on the
capital-update endpoint.  `aggregate_pnl` itself performs no check. -/
def capitalPayloadValid (c : ℚ) : Bool := decide (c > 0)

/-- C4 (counterexample): with capital −100 the engine computes a full
ledger (the single active date produces a daily row) instead of rejecting
the input before computation. -/
theorem c4_counterexample : (aggregate_pnl [tSellTiny] (-100)).daily.length = 1 := by
  have h1 : sortedLedgerDates [tSellTiny] = [⟨2024,1,1⟩] := by
    simp [sortedLedgerDates, ledgerDates, firstDedup, firstDedupAux, tSellTiny, tradeOk,
      truthyStr, List.insertionSort]
  have h2 := daily_length_foldl [tSellTiny] (-100) (sortedLedgerDates [tSellTiny])
    (initState (-100))
  rw [h1] at h2
  simpa [aggregate_pnl, finalState, initState, h1] using h2

/-- C4 (amended): the engine does not reject a negative capital — it runs
to completion, emitting one daily row per active date with every
`risk_pct` forced to 0; the only `capital > 0` validation sits in the
capital-update HTTP payload (`CapitalPayload`), which indeed rejects it. -/
theorem c4_negative_capital_not_rejected (trades : List Trade) (capital : ℚ)
    (hneg : capital < 0) :
    capitalPayloadValid capital = false ∧
    (aggregate_pnl trades capital).daily.length = (sortedLedgerDates trades).length ∧
    ((aggregate_pnl trades capital).daily.map (·.riskPct))
      = List.replicate (aggregate_pnl trades capital).daily.length 0 := by
  refine ⟨?_, ?_, ?_⟩
  · simp [capitalPayloadValid, not_lt.mpr (le_of_lt hneg), decide_eq_false]
  · have h2 := daily_length_foldl trades capital (sortedLedgerDates trades) (initState capital)
    simpa [aggregate_pnl, finalState, initState] using h2
  · have hall : ∀ e ∈ (aggregate_pnl trades capital).daily, e.riskPct = 0 :=
      riskPct_zero_of_nonpos (le_of_lt hneg) (sortedLedgerDates trades) (initState capital)
        (by intro e he; simp [initState] at he)
    rw [List.eq_replicate_iff]
    refine ⟨by simp, ?_⟩
    intro b hb
    rcases List.mem_map.mp hb with ⟨e, he, rfl⟩
    exact hall e he

/-- C4 witness: `c4_negative_capital_not_rejected` instantiated at the
one-trade collection and capital −100. -/
theorem c4_negative_capital_witness :
    capitalPayloadValid (-100) = false ∧
    (aggregate_pnl [tSellTiny] (-100)).daily.length
      = (sortedLedgerDates [tSellTiny]).length ∧
    ((aggregate_pnl [tSellTiny] (-100)).daily.map (·.riskPct))
      = List.replicate (aggregate_pnl [tSellTiny] (-100)).daily.length 0 :=
  c4_negative_capital_not_rejected [tSellTiny] (-100) (by norm_num)

/-! ## Claim C5 — the remaining-capital identity -/

/-- C5 (counterexample): with capital 0.004 and a single sell of value
0.004, the three emitted summary fields are `remaining_capital = −23.59`,
`capital = 0.00` and `net_total = −23.60`: because each field is rounded
independently, `remaining_capital ≠ capital + net_total` on the emitted
values. -/
theorem c5_counterexample :
    (aggregate_pnl [tSellTiny] (1/250)).summary.remaining_capital ≠
      (aggregate_pnl [tSellTiny] (1/250)).summary.capital +
      (aggregate_pnl [tSellTiny] (1/250)).summary.net_total := by
  have h1 : sortedLedgerDates [tSellTiny] = [⟨2024,1,1⟩] := by
    simp [sortedLedgerDates, ledgerDates, firstDedup, firstDedupAux, tSellTiny, tradeOk,
      truthyStr, List.insertionSort]
  have h2 : grossFor [tSellTiny] ⟨2024,1,1⟩ = 1/250 := by
    simp [grossFor, symbolsOn, symBuy, symSell, firstDedup, firstDedupAux, tSellTiny,
      tradeOk, truthyStr, tradeValue, qtyD, priceD, get_lot_size, strUpper, lookupLot,
      LOT_SIZES, strContains, listHasSub, List.isPrefixOf]
  have h3 : dailyBuy [tSellTiny] ⟨2024,1,1⟩ = 0 := by
    simp [dailyBuy, tSellTiny, tradeOk, truthyStr]
  have h4 : dailySell [tSellTiny] ⟨2024,1,1⟩ = 1/250 := by
    simp [dailySell, tSellTiny, tradeOk, truthyStr, tradeValue, qtyD, priceD, get_lot_size,
      strUpper, lookupLot, LOT_SIZES, strContains, listHasSub, List.isPrefixOf]
  have h5 : calculate_charges 0 (1/250) = ⟨20, 0, 0, 0, 18/5, 118/5⟩ := by
    norm_num [calculate_charges, chargesTotalRaw, chargesBrokerageRaw, chargesExchangeRaw,
      chargesSebiRaw, chargesStampRaw, chargesGstRaw, BROKERAGE_PER_ORDER,
      EXCHANGE_CHARGE_RATE, SEBI_CHARGE_RATE, GST_RATE, STAMP_RATE, round2, roundHalfEven]
  simp only [aggregate_pnl, finalState, h1, List.foldl, processDay, initState, h2, h3, h4, h5]
  norm_num [round2, roundHalfEven]

/-- C5 (amended): `remaining_capital` is the 2-decimal rounding of the
exact sum `capital + net_total(unrounded)` — the identity holds before
rounding — and on the emitted, independently rounded fields the identity
holds within one cent. -/
theorem c5_remaining_capital_identity (trades : List Trade) (capital : ℚ) :
    (aggregate_pnl trades capital).summary.remaining_capital
      = round2 (capital + (finalState trades capital).netTotal) ∧
    |(aggregate_pnl trades capital).summary.remaining_capital
      - ((aggregate_pnl trades capital).summary.capital
         + (aggregate_pnl trades capital).summary.net_total)| ≤ 1/100 := by
  refine ⟨rfl, ?_⟩
  have hproj :
      (aggregate_pnl trades capital).summary.remaining_capital
        - ((aggregate_pnl trades capital).summary.capital
           + (aggregate_pnl trades capital).summary.net_total)
      = round2 (capital + (finalState trades capital).netTotal)
        - round2 capital - round2 ((finalState trades capital).netTotal) := by
    simp only [aggregate_pnl]
    ring
  set nt := (finalState trades capital).netTotal with hnt
  have h1 := abs_round2_sub_le (capital + nt)
  have h2 := abs_round2_sub_le capital
  have h3 := abs_round2_sub_le nt
  have hk : round2 (capital + nt) - round2 capital - round2 nt
      = ((roundHalfEven (100 * (capital + nt)) - roundHalfEven (100 * capital)
          - roundHalfEven (100 * nt) : ℤ) : ℚ) / 100 := by
    unfold round2
    push_cast
    ring
  set k : ℤ := roundHalfEven (100 * (capital + nt)) - roundHalfEven (100 * capital)
    - roundHalfEven (100 * nt) with hkdef
  rw [abs_le] at h1 h2 h3
  have hkb : |(k : ℚ)| ≤ 3/2 := by
    rw [abs_le]
    have hq : (k : ℚ) = 100 * (round2 (capital + nt) - round2 capital - round2 nt) := by
      rw [hk]; ring
    constructor <;> [nlinarith [h1.1, h2.2, h3.2]; nlinarith [h1.2, h2.1, h3.1]]
  have hk1 : k ≤ 1 ∧ -1 ≤ k := by
    rw [abs_le] at hkb
    have hu : (k : ℚ) < 2 := lt_of_le_of_lt hkb.2 (by norm_num)
    have hl : (-2 : ℚ) < k := lt_of_lt_of_le (by norm_num) hkb.1
    have hu' : k < 2 := by exact_mod_cast hu
    have hl' : (-2 : ℤ) < k := by exact_mod_cast hl
    omega
  rw [hproj, hk, abs_le]
  have hu : ((k : ℚ) : ℚ) ≤ 1 := by exact_mod_cast hk1.1
  have hl : (-1 : ℚ) ≤ (k : ℚ) := by exact_mod_cast hk1.2
  constructor <;> linarith

/-! ## Claim C7 — drawdown sign and peak-equity monotonicity -/

/-- Invariant carried through the daily pass: all emitted drawdowns are
non-positive, the recorded `peak_equity` trajectory is ascending, and its
last value is the current `peak_equity` state variable. -/
def peakInv (st : DayState) : Prop :=
  (∀ e ∈ st.daily, e.drawdown ≤ 0) ∧
  List.Chain' (· ≤ ·) st.peaks ∧
  ∀ p ∈ st.peaks.getLast?, p ≤ st.peakEquity

theorem peakInv_processDay (trades : List Trade) (capital : ℚ) (st : DayState) (d : Date)
    (h : peakInv st) : peakInv (processDay trades capital st d) := by
  obtain ⟨hdd, hch, hlast⟩ := h
  unfold processDay
  refine ⟨?_, ?_, ?_⟩
  · intro e he
    simp only at he
    rcases List.mem_append.mp he with h1 | h1
    · exact hdd e h1
    · have he' := List.mem_singleton.mp h1
      subst he'
      simp only
      apply round2_nonpos
      have : capital + (st.runningPnl + (grossFor trades d
          - (calculate_charges (dailyBuy trades d) (dailySell trades d)).total))
          ≤ max st.peakEquity (capital + (st.runningPnl + (grossFor trades d
          - (calculate_charges (dailyBuy trades d) (dailySell trades d)).total))) :=
        le_max_right _ _
      linarith
  · simp only
    rw [List.chain'_append]
    refine ⟨hch, List.chain'_singleton _, ?_⟩
    intro x hx y hy
    simp only [List.head?_cons, Option.mem_def, Option.some.injEq] at hy
    subst hy
    exact le_trans (hlast x hx) (le_max_left _ _)
  · simp only
    intro p hp
    rw [List.getLast?_concat] at hp
    simp only [Option.mem_def, Option.some.injEq] at hp
    subst hp
    exact le_refl _

theorem peakInv_foldl (trades : List Trade) (capital : ℚ) :
    ∀ (dates : List Date) (st : DayState), peakInv st →
      peakInv (dates.foldl (processDay trades capital) st) := by
  intro dates
  induction dates with
  | nil => intro st h; exact h
  | cons d rest ih =>
    intro st h
    exact ih _ (peakInv_processDay trades capital st d h)

/-- C7 (amended): every emitted daily `drawdown` is ≤ 0, and the exact
(pre-rounding) sequence of `peak_equity` values over the chronological
walk is non-decreasing.  (The counterexample shows the *rounded-field*
reconstruction `equity − drawdown` can decrease.) -/
theorem c7_drawdown_and_peaks (trades : List Trade) (capital : ℚ) :
    (∀ e ∈ (aggregate_pnl trades capital).daily, e.drawdown ≤ 0) ∧
    List.Chain' (· ≤ ·) (finalState trades capital).peaks := by
  have hinv : peakInv (finalState trades capital) := by
    apply peakInv_foldl
    refine ⟨?_, ?_, ?_⟩
    · intro e he; simp [initState] at he
    · simp [initState]
    · simp [initState]
  exact ⟨fun e he => hinv.1 e (by simpa [aggregate_pnl] using he), hinv.2.1⟩

/-- Two sells of an unregistered symbol on consecutive days, sized so the
exact equities are 0.015 then 0.005 (net +0.015 then −0.01). -/
def tPeakA : Trade :=
  { symbol := some "X", side := "SELL", quantity := some 1, price := some (189/8)
    trade_time := some ⟨2024, 1, 1⟩, suggested_strategy := none, final_strategy := none }

def tPeakB : Trade :=
  { symbol := some "X", side := "SELL", quantity := some 1, price := some (118/5)
    trade_time := some ⟨2024, 1, 2⟩, suggested_strategy := none, final_strategy := none }

/-- C7 (counterexample): on the two-day run with capital 0 the emitted
(rounded) fields give reconstructed peaks `equity − drawdown` of
`[0.02, 0.01]` — a strictly decreasing sequence, refuting the claim that
the reconstruction from the emitted fields is non-decreasing. -/
theorem c7_counterexample :
    ¬ List.Chain' (· ≤ ·)
      (((aggregate_pnl [tPeakA, tPeakB] 0).daily).map fun e => e.equity - e.drawdown) := by
  have h1 : sortedLedgerDates [tPeakA, tPeakB] = [⟨2024,1,1⟩, ⟨2024,1,2⟩] := by
    simp [sortedLedgerDates, ledgerDates, firstDedup, firstDedupAux, tPeakA, tPeakB,
      tradeOk, truthyStr, List.insertionSort, List.orderedInsert, dateLe]
  have h2a : grossFor [tPeakA, tPeakB] ⟨2024,1,1⟩ = 189/8 := by
    simp [grossFor, symbolsOn, symBuy, symSell, firstDedup, firstDedupAux, tPeakA, tPeakB,
      tradeOk, truthyStr, tradeValue, qtyD, priceD, get_lot_size, strUpper, lookupLot,
      LOT_SIZES, strContains, listHasSub, List.isPrefixOf]
  have h2b : grossFor [tPeakA, tPeakB] ⟨2024,1,2⟩ = 118/5 := by
    simp [grossFor, symbolsOn, symBuy, symSell, firstDedup, firstDedupAux, tPeakA, tPeakB,
      tradeOk, truthyStr, tradeValue, qtyD, priceD, get_lot_size, strUpper, lookupLot,
      LOT_SIZES, strContains, listHasSub, List.isPrefixOf]
  have h3a : dailyBuy [tPeakA, tPeakB] ⟨2024,1,1⟩ = 0 := by
    simp [dailyBuy, tPeakA, tPeakB, tradeOk, truthyStr]
  have h3b : dailyBuy [tPeakA, tPeakB] ⟨2024,1,2⟩ = 0 := by
    simp [dailyBuy, tPeakA, tPeakB, tradeOk, truthyStr]
  have h4a : dailySell [tPeakA, tPeakB] ⟨2024,1,1⟩ = 189/8 := by
    simp [dailySell, tPeakA, tPeakB, tradeOk, truthyStr, tradeValue, qtyD, priceD,
      get_lot_size, strUpper, lookupLot, LOT_SIZES, strContains, listHasSub,
      List.isPrefixOf]
  have h4b : dailySell [tPeakA, tPeakB] ⟨2024,1,2⟩ = 118/5 := by
    simp [dailySell, tPeakA, tPeakB, tradeOk, truthyStr, tradeValue, qtyD, priceD,
      get_lot_size, strUpper, lookupLot, LOT_SIZES, strContains, listHasSub,
      List.isPrefixOf]
  have h5a : calculate_charges 0 (189/8) = ⟨20, 1/100, 0, 0, 18/5, 2361/100⟩ := by
    norm_num [calculate_charges, chargesTotalRaw, chargesBrokerageRaw, chargesExchangeRaw,
      chargesSebiRaw, chargesStampRaw, chargesGstRaw, BROKERAGE_PER_ORDER,
      EXCHANGE_CHARGE_RATE, SEBI_CHARGE_RATE, GST_RATE, STAMP_RATE, round2, roundHalfEven]
  have h5b : calculate_charges 0 (118/5) = ⟨20, 1/100, 0, 0, 18/5, 2361/100⟩ := by
    norm_num [calculate_charges, chargesTotalRaw, chargesBrokerageRaw, chargesExchangeRaw,
      chargesSebiRaw, chargesStampRaw, chargesGstRaw, BROKERAGE_PER_ORDER,
      EXCHANGE_CHARGE_RATE, SEBI_CHARGE_RATE, GST_RATE, STAMP_RATE, round2, roundHalfEven]
  simp only [aggregate_pnl, finalState, h1, List.foldl, processDay, initState,
    h2a, h2b, h3a, h3b, h4a, h4b, h5a, h5b]
  norm_num [round2, roundHalfEven, List.chain'_cons]

/-! ## Claim C9 — order-independence of the ledger aggregation -/

theorem dailyBuy_perm {t1 t2 : List Trade} (h : t1.Perm t2) (d : Date) :
    dailyBuy t1 d = dailyBuy t2 d :=
  ((h.filter _).map _).sum_eq

theorem dailySell_perm {t1 t2 : List Trade} (h : t1.Perm t2) (d : Date) :
    dailySell t1 d = dailySell t2 d :=
  ((h.filter _).map _).sum_eq

theorem symBuy_perm {t1 t2 : List Trade} (h : t1.Perm t2) (d : Date) (s : String) :
    symBuy t1 d s = symBuy t2 d s :=
  ((h.filter _).map _).sum_eq

theorem symSell_perm {t1 t2 : List Trade} (h : t1.Perm t2) (d : Date) (s : String) :
    symSell t1 d s = symSell t2 d s :=
  ((h.filter _).map _).sum_eq

theorem symbolsOn_perm {t1 t2 : List Trade} (h : t1.Perm t2) (d : Date) :
    (symbolsOn t1 d).Perm (symbolsOn t2 d) :=
  firstDedup_perm_of_perm ((h.filter _).filterMap _)

theorem grossFor_perm {t1 t2 : List Trade} (h : t1.Perm t2) (d : Date) :
    grossFor t1 d = grossFor t2 d := by
  unfold grossFor
  have hfun : (fun s => symSell t1 d s - symBuy t1 d s)
      = fun s => symSell t2 d s - symBuy t2 d s := by
    funext s
    rw [symSell_perm h, symBuy_perm h]
  rw [hfun]
  exact ((symbolsOn_perm h d).map _).sum_eq

theorem sortedLedgerDates_perm {t1 t2 : List Trade} (h : t1.Perm t2) :
    sortedLedgerDates t1 = sortedLedgerDates t2 := by
  have hld : (ledgerDates t1).Perm (ledgerDates t2) := h.filterMap _
  have hp : (sortedLedgerDates t1).Perm (sortedLedgerDates t2) :=
    ((List.perm_insertionSort dateLe _).trans (firstDedup_perm_of_perm hld)).trans
      (List.perm_insertionSort dateLe _).symm
  exact List.eq_of_perm_of_sorted hp (List.sorted_insertionSort dateLe _)
    (List.sorted_insertionSort dateLe _)

theorem processDay_perm {t1 t2 : List Trade} (h : t1.Perm t2) (capital : ℚ) :
    processDay t1 capital = processDay t2 capital := by
  funext st d
  unfold processDay
  rw [grossFor_perm h, dailyBuy_perm h, dailySell_perm h]

/-- C9: the ledger aggregation is invariant under permuting the trade
collection — the daily sequence and all summary figures coincide
(identity of the whole result; two runs on the identical collection are
the reflexive case). -/
theorem c9_aggregate_pnl_perm_invariant (t1 t2 : List Trade) (capital : ℚ)
    (h : t1.Perm t2) :
    aggregate_pnl t1 capital = aggregate_pnl t2 capital := by
  have hfs : finalState t1 capital = finalState t2 capital := by
    unfold finalState
    rw [sortedLedgerDates_perm h, processDay_perm h]
  unfold aggregate_pnl
  rw [hfs]

/-- C9 witness: the two-trade collection and its transposition give the
identical result. -/
theorem c9_perm_witness :
    aggregate_pnl [tPeakA, tPeakB] 5 = aggregate_pnl [tPeakB, tPeakA] 5 :=
  c9_aggregate_pnl_perm_invariant [tPeakA, tPeakB] [tPeakB, tPeakA] 5
    (List.Perm.swap tPeakB tPeakA [])

/-! ## Position reconciler (`position_engine.calculate_positions`)

The position loop applies *no* missing-field guard: every trade with side
`"BUY"`/`"SELL"` is accumulated under its (possibly missing) symbol, and
`trade_time` is never read.  Values here are `qty * price` (no lot
multiplier).  The `int(...)` casts on `net_qty`, `lots` and `lot_size`
are exact (the values are integers), so the fields keep their numeric
values. -/

/-- Accumulator `positions[s]["buy_qty"]`. -/
def buyQty (trades : List Trade) (s : Option String) : ℚ :=
  ((trades.filter fun t => t.side == "BUY" && t.symbol == s).map qtyD).sum

/-- Accumulator `positions[s]["sell_qty"]`. -/
def sellQty (trades : List Trade) (s : Option String) : ℚ :=
  ((trades.filter fun t => t.side == "SELL" && t.symbol == s).map qtyD).sum

/-- Accumulator `positions[s]["buy_value"]`. -/
def buyValue (trades : List Trade) (s : Option String) : ℚ :=
  ((trades.filter fun t => t.side == "BUY" && t.symbol == s).map
    fun t => qtyD t * priceD t).sum

/-- Accumulator `positions[s]["sell_value"]`. -/
def sellValue (trades : List Trade) (s : Option String) : ℚ :=
  ((trades.filter fun t => t.side == "SELL" && t.symbol == s).map
    fun t => qtyD t * priceD t).sum

/-- The keys of `positions` in insertion order (an entry is created only
inside the BUY/SELL branches). -/
def posSymbols (trades : List Trade) : List (Option String) :=
  firstDedup ((trades.filter fun t => t.side == "BUY" || t.side == "SELL").map (·.symbol))

structure PositionEntry where
  symbol : Option String
  net_qty : ℚ
  lots : ℚ
  lot_size : ℚ
  avg_price : ℚ
  realized_pnl_points : ℚ
  realized_pnl_amount : ℚ
deriving DecidableEq, Repr

/-- Function `calculate_positions(trades)`. -/
def calculate_positions (trades : List Trade) : List PositionEntry :=
  (posSymbols trades).filterMap fun s =>
    let bq := buyQty trades s
    let sq := sellQty trades s
    let traded_qty := min bq sq
    if traded_qty = 0 then none
    else
      let avg_buy := if bq ≠ 0 then buyValue trades s / bq else 0
      let avg_sell := if sq ≠ 0 then sellValue trades s / sq else 0
      let pnl_points := avg_sell - avg_buy
      let lot_size := get_lot_size s
      some { symbol := s
             net_qty := bq - sq
             lots := traded_qty
             lot_size := lot_size
             avg_price := round2 avg_buy
             realized_pnl_points := round2 pnl_points
             realized_pnl_amount := round2 (pnl_points * lot_size * traded_qty) }

theorem buyQty_nonneg (trades : List Trade) (s : Option String) : 0 ≤ buyQty trades s := by
  apply List.sum_nonneg
  intro x hx
  rcases List.mem_map.mp hx with ⟨t, _, rfl⟩
  exact Nat.cast_nonneg _

theorem sellQty_nonneg (trades : List Trade) (s : Option String) : 0 ≤ sellQty trades s := by
  apply List.sum_nonneg
  intro x hx
  rcases List.mem_map.mp hx with ⟨t, _, rfl⟩
  exact Nat.cast_nonneg _

/-! ## Claim C6 — per-symbol realized position summaries -/

/-- C6: a summary is emitted for a symbol exactly under positive buy and
sell quantities; its fields are the defining expressions (average prices
as value/quantity, points as the price difference, amount as
points × lot size × realized quantity), each rounded to 2 decimals at
emission, with `realizedQty = min(totalBuyQty, totalSellQty)`. -/
theorem c6_position_summary (trades : List Trade) (s : Option String) :
    (0 < buyQty trades s → 0 < sellQty trades s →
      ∃ e ∈ calculate_positions trades,
        e.symbol = s ∧
        e.lots = min (buyQty trades s) (sellQty trades s) ∧
        e.avg_price = round2 (buyValue trades s / buyQty trades s) ∧
        e.realized_pnl_points
          = round2 (sellValue trades s / sellQty trades s
              - buyValue trades s / buyQty trades s) ∧
        e.realized_pnl_amount
          = round2 ((sellValue trades s / sellQty trades s
              - buyValue trades s / buyQty trades s)
              * get_lot_size s * min (buyQty trades s) (sellQty trades s))) ∧
    (∀ e ∈ calculate_positions trades, e.symbol = s →
      0 < buyQty trades s ∧ 0 < sellQty trades s) := by
  constructor
  · intro hb hs
    have hbne : buyQty trades s ≠ 0 := ne_of_gt hb
    have hsne : sellQty trades s ≠ 0 := ne_of_gt hs
    have hmin : min (buyQty trades s) (sellQty trades s) ≠ 0 :=
      ne_of_gt (lt_min hb hs)
    have hmem : s ∈ posSymbols trades := by
      have hne : (trades.filter fun t => t.side == "BUY" && t.symbol == s) ≠ [] := by
        intro hnil
        rw [buyQty, hnil] at hb
        simp at hb
      obtain ⟨t, ht⟩ := List.exists_mem_of_ne_nil _ hne
      have htf := List.mem_filter.mp ht
      have htf2 := htf.2
      rw [Bool.and_eq_true] at htf2
      have hside : (t.side == "BUY") = true := htf2.1
      have hsym : t.symbol = s := eq_of_beq htf2.2
      rw [posSymbols, mem_firstDedup]
      apply List.mem_map.mpr
      refine ⟨t, ?_, hsym⟩
      apply List.mem_filter.mpr
      exact ⟨htf.1, by rw [hside]; rfl⟩
    refine ⟨⟨s, buyQty trades s - sellQty trades s,
        min (buyQty trades s) (sellQty trades s), get_lot_size s,
        round2 (buyValue trades s / buyQty trades s),
        round2 (sellValue trades s / sellQty trades s - buyValue trades s / buyQty trades s),
        round2 ((sellValue trades s / sellQty trades s - buyValue trades s / buyQty trades s)
          * get_lot_size s * min (buyQty trades s) (sellQty trades s))⟩,
      ?_, rfl, rfl, rfl, rfl, rfl⟩
    simp only [calculate_positions]
    apply List.mem_filterMap.mpr
    refine ⟨s, hmem, ?_⟩
    simp only [if_neg hmin, if_pos hbne, if_pos hsne]
  · intro e he hesym
    simp only [calculate_positions] at he
    rcases List.mem_filterMap.mp he with ⟨s', hs', hf⟩
    by_cases hzero : min (buyQty trades s') (sellQty trades s') = 0
    · rw [if_pos hzero] at hf
      exact absurd hf (by simp)
    · rw [if_neg hzero] at hf
      have hX := Option.some.inj hf
      have hes : e.symbol = s' := by rw [← hX]
      have hss : s' = s := by rw [← hes, hesym]
      subst hss
      have hbn := buyQty_nonneg trades s'
      have hsn := sellQty_nonneg trades s'
      constructor
      · rcases lt_or_eq_of_le hbn with h | h
        · exact h
        · exfalso
          apply hzero
          rw [← h]
          exact min_eq_left hsn
      · rcases lt_or_eq_of_le hsn with h | h
        · exact h
        · exfalso
          apply hzero
          rw [← h]
          exact min_eq_right hbn

/-- The spec's §8 scenario: BUY 75 @ 100, SELL 75 @ 120 of
`NIFTY24000CE` on one day. -/
def tBuyN : Trade :=
  { symbol := some "NIFTY24000CE", side := "BUY", quantity := some 75, price := some 100
    trade_time := some ⟨2024, 3, 4⟩, suggested_strategy := none, final_strategy := none }

def tSellN : Trade :=
  { symbol := some "NIFTY24000CE", side := "SELL", quantity := some 75, price := some 120
    trade_time := some ⟨2024, 3, 4⟩, suggested_strategy := none, final_strategy := none }

/-- C6 witness: `c6_position_summary` applied to the spec's scenario
(both quantities are 75 > 0). -/
theorem c6_position_summary_witness :
    ∃ e ∈ calculate_positions [tBuyN, tSellN],
      e.symbol = some "NIFTY24000CE" ∧
      e.lots = min (buyQty [tBuyN, tSellN] (some "NIFTY24000CE"))
        (sellQty [tBuyN, tSellN] (some "NIFTY24000CE")) ∧
      e.avg_price = round2 (buyValue [tBuyN, tSellN] (some "NIFTY24000CE")
        / buyQty [tBuyN, tSellN] (some "NIFTY24000CE")) ∧
      e.realized_pnl_points
        = round2 (sellValue [tBuyN, tSellN] (some "NIFTY24000CE")
            / sellQty [tBuyN, tSellN] (some "NIFTY24000CE")
            - buyValue [tBuyN, tSellN] (some "NIFTY24000CE")
            / buyQty [tBuyN, tSellN] (some "NIFTY24000CE")) ∧
      e.realized_pnl_amount
        = round2 ((sellValue [tBuyN, tSellN] (some "NIFTY24000CE")
            / sellQty [tBuyN, tSellN] (some "NIFTY24000CE")
            - buyValue [tBuyN, tSellN] (some "NIFTY24000CE")
            / buyQty [tBuyN, tSellN] (some "NIFTY24000CE"))
            * get_lot_size (some "NIFTY24000CE")
            * min (buyQty [tBuyN, tSellN] (some "NIFTY24000CE"))
              (sellQty [tBuyN, tSellN] (some "NIFTY24000CE"))) :=
  (c6_position_summary [tBuyN, tSellN] (some "NIFTY24000CE")).1
    (by simp [buyQty, tBuyN, tSellN, qtyD])
    (by simp [sellQty, tBuyN, tSellN, qtyD])

/-! ## Claim C10 — trades with an unrecognized side are no-ops -/

theorem filter_skip_middle {l1 l2 : List Trade} {t : Trade} {p : Trade → Bool}
    (hp : p t = false) :
    (l1 ++ t :: l2).filter p = (l1 ++ l2).filter p := by
  simp only [List.filter_append, List.filter_cons, hp]
  simp

theorem filterMap_skip_middle {β : Type} {l1 l2 : List Trade} {t : Trade}
    {f : Trade → Option β} (hf : f t = none) :
    (l1 ++ t :: l2).filterMap f = (l1 ++ l2).filterMap f := by
  simp only [List.filterMap_append, List.filterMap_cons, hf]

/-- C10: a trade whose side is neither `"BUY"` nor `"SELL"` contributes to
nothing: both the ledger aggregation and the position reconciliation give
the same output as on the collection with that trade removed. -/
theorem c10_invalid_side_ignored (l1 l2 : List Trade) (t : Trade) (capital : ℚ)
    (hb : t.side ≠ "BUY") (hs : t.side ≠ "SELL") :
    aggregate_pnl (l1 ++ t :: l2) capital = aggregate_pnl (l1 ++ l2) capital ∧
    calculate_positions (l1 ++ t :: l2) = calculate_positions (l1 ++ l2) := by
  have hbb : (t.side == "BUY") = false := by
    simp only [beq_eq_false_iff_ne, ne_eq]
    exact hb
  have hsb : (t.side == "SELL") = false := by
    simp only [beq_eq_false_iff_ne, ne_eq]
    exact hs
  have hDB : ∀ d, dailyBuy (l1 ++ t :: l2) d = dailyBuy (l1 ++ l2) d := by
    intro d
    unfold dailyBuy
    rw [filter_skip_middle (by simp [hbb])]
  have hDS : ∀ d, dailySell (l1 ++ t :: l2) d = dailySell (l1 ++ l2) d := by
    intro d
    unfold dailySell
    rw [filter_skip_middle (by simp [hsb])]
  have hSB : ∀ d s, symBuy (l1 ++ t :: l2) d s = symBuy (l1 ++ l2) d s := by
    intro d s
    unfold symBuy
    rw [filter_skip_middle (by simp [hbb])]
  have hSS : ∀ d s, symSell (l1 ++ t :: l2) d s = symSell (l1 ++ l2) d s := by
    intro d s
    unfold symSell
    rw [filter_skip_middle (by simp [hsb])]
  have hSO : ∀ d, symbolsOn (l1 ++ t :: l2) d = symbolsOn (l1 ++ l2) d := by
    intro d
    unfold symbolsOn
    rw [filter_skip_middle (by simp [hbb, hsb])]
  have hGF : ∀ d, grossFor (l1 ++ t :: l2) d = grossFor (l1 ++ l2) d := by
    intro d
    unfold grossFor
    rw [hSO]
    have hfun : (fun s => symSell (l1 ++ t :: l2) d s - symBuy (l1 ++ t :: l2) d s)
        = fun s => symSell (l1 ++ l2) d s - symBuy (l1 ++ l2) d s := by
      funext s
      rw [hSB, hSS]
    rw [hfun]
  have hLD : ledgerDates (l1 ++ t :: l2) = ledgerDates (l1 ++ l2) := by
    unfold ledgerDates
    rw [filterMap_skip_middle (by simp [hbb, hsb])]
  have hPD : processDay (l1 ++ t :: l2) capital = processDay (l1 ++ l2) capital := by
    funext st d
    unfold processDay
    rw [hGF, hDB, hDS]
  constructor
  · unfold aggregate_pnl finalState sortedLedgerDates
    rw [hLD, hPD]
  · unfold calculate_positions posSymbols
    rw [filter_skip_middle (by simp [hbb, hsb])]
    congr 1
    funext s
    unfold buyQty sellQty buyValue sellValue
    rw [filter_skip_middle (p := fun t' => t'.side == "BUY" && t'.symbol == s)
        (by simp [hbb]),
      filter_skip_middle (p := fun t' => t'.side == "SELL" && t'.symbol == s)
        (by simp [hsb])]

/-- A malformed trade: lowercase side `"buy"`. -/
def tBadSide : Trade :=
  { symbol := some "NIFTY", side := "buy", quantity := some 75, price := some 100
    trade_time := some ⟨2024, 3, 4⟩, suggested_strategy := none, final_strategy := none }

/-- C10 witness: inserting the lowercase-side trade between two valid
trades changes neither output. -/
theorem c10_invalid_side_witness :
    aggregate_pnl ([tBuyN] ++ tBadSide :: [tSellN]) 1000
      = aggregate_pnl ([tBuyN] ++ [tSellN]) 1000 ∧
    calculate_positions ([tBuyN] ++ tBadSide :: [tSellN])
      = calculate_positions ([tBuyN] ++ [tSellN]) :=
  c10_invalid_side_ignored [tBuyN] [tSellN] tBadSide 1000
    (by simp [tBadSide]) (by simp [tBadSide])

/-! ## Strategy cost allocator (`strategy_pnl_routes.strategy_pnl`)

The computational body of the route.  Its first pass accumulates daily
turnover with the same missing-field guard as the ledger engine; its
second pass, however, evaluates `t.trade_time.date()` for *every* trade
before any branch, so a trade with a missing timestamp raises
`AttributeError` — modelled with `Except`.  The `daily_charges[d]` dict
read is guarded by `day_total > 0`, which guarantees the key exists, so
it is modelled by the total charge function of the date. -/

structure StratStat where
  gross : ℚ
  charges : ℚ
  pnl : ℚ      -- present in the defaultdict literal but never updated or read
  trades : ℕ
deriving DecidableEq, Repr

def stratDefault : StratStat := ⟨0, 0, 0, 0⟩

/-- Python `a or b` on an optional string (`None` and `""` are falsy). -/
def orStr (o : Option String) (dflt : String) : String :=
  match o with
  | none => dflt
  | some s => if s == "" then dflt else s

/-- Key `t.final_strategy or t.suggested_strategy or "Unclassified"`. -/
def stratKey (t : Trade) : String :=
  orStr t.final_strategy (orStr t.suggested_strategy "Unclassified")

/-- In-place update of the insertion-ordered `stats` dict. -/
def updStats (k : String) (f : StratStat → StratStat) :
    List (String × StratStat) → List (String × StratStat)
  | [] => [(k, f stratDefault)]
  | (k', v) :: rest => if k' == k then (k', f v) :: rest else (k', v) :: updStats k f rest

/-- Lookup `daily_charges[d]` (read only when the day's turnover is positive). -/
def dailyChargesTotal (trades : List Trade) (d : Date) : ℚ :=
  (calculate_charges (dailyBuy trades d) (dailySell trades d)).total

/-- One iteration of the second pass. -/
def stratStep (trades : List Trade) (stats : List (String × StratStat)) (t : Trade) :
    Except String (List (String × StratStat)) :=
  match t.trade_time with
  | none => .error "AttributeError"   -- `t.trade_time.date()` with trade_time = None
  | some d =>
    let strategy := stratKey t
    let value := qtyD t * priceD t * get_lot_size t.symbol
    let stats1 :=
      if t.side == "BUY" then
        updStats strategy (fun v => { v with gross := v.gross - value }) stats
      else if t.side == "SELL" then
        updStats strategy (fun v => { v with gross := v.gross + value }) stats
      else stats
    let stats2 := updStats strategy (fun v => { v with trades := v.trades + 1 }) stats1
    let day_total := dailyBuy trades d + dailySell trades d
    let stats3 :=
      if day_total > 0 then
        updStats strategy (fun v =>
          { v with charges := v.charges + dailyChargesTotal trades d * (value / day_total) })
          stats2
      else stats2
    .ok stats3

structure StratEntry where
  strategy : String
  pnl : ℚ
  trades : ℕ
deriving DecidableEq, Repr

/-- Python `sorted(output, key=lambda x: x["pnl"], reverse=True)`:
stable descending order on `pnl`. -/
def stratGe (a b : StratEntry) : Prop := b.pnl ≤ a.pnl

instance stratGe.instDecidable : DecidableRel stratGe := fun a b => by
  unfold stratGe; infer_instance

/-- Function `strategy_pnl(trades)`: `Except.error` models the uncaught
`AttributeError` of the second pass. -/
def strategy_pnl (trades : List Trade) : Except String (List StratEntry) :=
  match trades.foldlM (stratStep trades) [] with
  | .error e => .error e
  | .ok stats =>
    .ok (List.insertionSort stratGe (stats.map fun kv =>
      { strategy := kv.1, pnl := round2 (kv.2.gross - kv.2.charges), trades := kv.2.trades }))

/-! ## Claim C3 — trades with missing timestamp / symbol -/

/-- A trade missing its timestamp (valid symbol and side). -/
def tNoTime : Trade :=
  { symbol := some "NIFTY", side := "BUY", quantity := some 75, price := some 100
    trade_time := none, suggested_strategy := none, final_strategy := none }

def tNoTimeBuy : Trade :=
  { symbol := some "X", side := "BUY", quantity := some 1, price := some 100
    trade_time := none, suggested_strategy := none, final_strategy := none }

def tNoTimeSell : Trade :=
  { symbol := some "X", side := "SELL", quantity := some 1, price := some 110
    trade_time := none, suggested_strategy := none, final_strategy := none }

/-- C3 (code evaluation at the failing input): the ledger aggregation
does skip a timestamp-less trade (its run equals the empty run), but the
strategy allocation raises instead of returning normally, and the
position reconciliation includes such trades instead of excluding them
(a buy/sell pair with missing timestamps yields a realized position, the
defect-free collection yields none). -/
theorem c3_missing_fields_not_silently_skipped :
    aggregate_pnl [tNoTime] 100 = aggregate_pnl [] 100 ∧
    strategy_pnl [tNoTime] = .error "AttributeError" ∧
    calculate_positions [tNoTimeBuy, tNoTimeSell] ≠ calculate_positions [] := by
  refine ⟨?_, ?_, ?_⟩
  · have h1 : sortedLedgerDates [tNoTime] = [] := by
      simp [sortedLedgerDates, ledgerDates, firstDedup, firstDedupAux, tNoTime, tradeOk,
        List.insertionSort]
    have h2 : sortedLedgerDates ([] : List Trade) = [] := by
      simp [sortedLedgerDates, ledgerDates, firstDedup, firstDedupAux, List.insertionSort]
    unfold aggregate_pnl finalState
    rw [h1, h2]
    rfl
  · simp [strategy_pnl, List.foldlM, stratStep, tNoTime]
  · have hpos : calculate_positions ([] : List Trade) = [] := by
      simp [calculate_positions, posSymbols, firstDedup, firstDedupAux]
    rw [hpos]
    have h1 : posSymbols [tNoTimeBuy, tNoTimeSell] = [some "X"] := by
      simp [posSymbols, firstDedup, firstDedupAux, tNoTimeBuy, tNoTimeSell]
    have hbq : buyQty [tNoTimeBuy, tNoTimeSell] (some "X") = 1 := by
      simp [buyQty, tNoTimeBuy, tNoTimeSell, qtyD]
    have hsq : sellQty [tNoTimeBuy, tNoTimeSell] (some "X") = 1 := by
      simp [sellQty, tNoTimeBuy, tNoTimeSell, qtyD]
    simp only [calculate_positions, h1, List.filterMap_cons, List.filterMap_nil, hbq, hsq]
    norm_num

/-- C7 witness: the amended drawdown/peak statement instantiated on the
concrete two-day run. -/
theorem c7_drawdown_and_peaks_witness :
    (∀ e ∈ (aggregate_pnl [tPeakA, tPeakB] 0).daily, e.drawdown ≤ 0) ∧
    List.Chain' (· ≤ ·) (finalState [tPeakA, tPeakB] 0).peaks :=
  c7_drawdown_and_peaks [tPeakA, tPeakB] 0
